import Mathlib

/-!
# Verification of the feedlot template-assembly pipeline

A shallow embedding, in Lean 4, of the parts of the feedlot code base
(package `app` / `ranchr`) that the specification's claims are about:

* the `key = value` settings primitives (`parseVar`, the ordered-settings
  merge `mergeSettingsSlices`),
* the common-builder overlay (`updateCommon`),
* the CentOS ISO discovery helpers (`setReleaseInfo`, `setReleaseNumber`,
  `randomISOURL`),
* the virtualbox-iso ISO resolution tail of `createVirtualBoxISO`,
* the multi-line command joiner `commandFromSlice`,
* the HTTP-directory step `setHTTP`,
* the example-mode branch of the source resolver `findSource`,
* the amazon-chroot settings walk of `createAmazonChroot`, and
* the `vboxmanage` array transform `createVBoxManage`.

Go maps are embedded as association lists with unique keys, Go slices as
`List`, machine integers as `Int`/`Nat`, fallible code as `Except`/`Option`,
and a Go panic as an explicit `none`/`panic` result value.  HTTP fetches and
the process-wide PRNG are passed in as explicit parameters (a fetch function
`String → String`, a draw `Nat`).
-/

namespace Feedlot

/-! ## Association lists (Go `map[string]T`)

Go maps have unique keys; `assocGet` returns the binding for a key,
`assocSet` replaces it (or appends a new binding). -/

def assocGet {α : Type} : List (String × α) → String → Option α
  | [], _ => none
  | (k', v) :: rest, k => if k' = k then some v else assocGet rest k

def assocSet {α : Type} : List (String × α) → String → α → List (String × α)
  | [], k, v => [(k, v)]
  | (k', v') :: rest, k, v =>
      if k' = k then (k, v) :: rest else (k', v') :: assocSet rest k v

theorem assocGet_assocSet_self {α : Type} (l : List (String × α)) (k : String) (v : α) :
    assocGet (assocSet l k v) k = some v := by
  induction l with
  | nil => simp [assocSet, assocGet]
  | cons p rest ih =>
      by_cases h : p.1 = k
      · simp [assocSet, assocGet, h]
      · simp [assocSet, assocGet, h, ih]

theorem assocGet_assocSet_ne {α : Type} (l : List (String × α)) (k q : String) (v : α)
    (h : q ≠ k) : assocGet (assocSet l k v) q = assocGet l q := by
  induction l with
  | nil => simp [assocSet, assocGet, Ne.symm h]
  | cons p rest ih =>
      by_cases hp : p.1 = k
      · simp [assocSet, assocGet, hp, Ne.symm h]
      · simp [assocSet, assocGet, hp, ih]

/-! ## Settings sequences (ordered `key=value` entries)

A component's `Settings` field is an ordered sequence that is semantically a
mapping in which the *last* occurrence of a key wins (spec §3).  We embed an
already-parsed entry as a `String × String` pair. -/

abbrev Settings := List (String × String)

def settingsKeys (s : Settings) : List String := s.map Prod.fst

/-- `settingsGet` looks a key up in an ordered settings sequence; the last
occurrence of a key wins. -/
def settingsGet : Settings → String → Option String
  | [], _ => none
  | (k', v) :: rest, k =>
      match settingsGet rest k with
      | some v' => some v'
      | none => if k' = k then some v else none

/-- First-appearance index of a key in a key list (length of the list when
the key is absent). -/
def keyFirstIdx : List String → String → Nat
  | [], _ => 0
  | x :: rest, k => if x = k then 0 else keyFirstIdx rest k + 1

/-- Deduplicate a key list keeping the *first* occurrence of each key, in
first-appearance order. -/
def dedupFirst : List String → List String
  | [] => []
  | k :: rest => k :: (dedupFirst rest).filter (fun x => x ≠ k)

theorem dedupFirst_mem (l : List String) (k : String) : k ∈ dedupFirst l ↔ k ∈ l := by
  induction l with
  | nil => simp [dedupFirst]
  | cons x rest ih =>
      simp only [dedupFirst, List.mem_cons, List.mem_filter]
      constructor
      · rintro (rfl | ⟨hmem, _⟩)
        · exact Or.inl rfl
        · exact Or.inr (ih.mp hmem)
      · rintro (rfl | hmem)
        · exact Or.inl rfl
        · by_cases hx : k = x
          · exact Or.inl hx
          · exact Or.inr ⟨ih.mpr hmem, by simpa using hx⟩

theorem dedupFirst_nodup (l : List String) : (dedupFirst l).Nodup := by
  induction l with
  | nil => simp [dedupFirst]
  | cons x rest ih =>
      simp only [dedupFirst, List.nodup_cons]
      refine ⟨?_, ih.filter _⟩
      intro hmem
      rcases List.mem_filter.mp hmem with ⟨_, hne⟩
      simp at hne

theorem settingsGet_isSome_iff (l : Settings) (k : String) :
    (settingsGet l k).isSome ↔ k ∈ settingsKeys l := by
  induction l with
  | nil => simp [settingsGet, settingsKeys]
  | cons p rest ih =>
      obtain ⟨k', v⟩ := p
      simp only [settingsGet, settingsKeys, List.map_cons, List.mem_cons]
      cases hrest : settingsGet rest k with
      | some v' =>
          simp only [hrest, Option.isSome_some, true_iff]
          right
          have := ih.mp (by simp [hrest])
          simpa [settingsKeys] using this
      | none =>
          by_cases hk : k' = k
          · simp [hrest, hk]
          · simp only [hrest, hk, if_false]
            constructor
            · intro h; simp at h
            · rintro (rfl | hmem)
              · exact absurd rfl hk
              · have : (settingsGet rest k).isSome := ih.mpr (by simpa [settingsKeys] using hmem)
                rw [hrest] at this
                simp at this

theorem settingsGet_eq_none_of_not_mem (l : Settings) (k : String)
    (h : k ∉ settingsKeys l) : settingsGet l k = none := by
  cases hl : settingsGet l k with
  | none => rfl
  | some v =>
      exact absurd ((settingsGet_isSome_iff l k).mp (by simp [hl])) h

/-- Lookup in a `filterMap` over a duplicate-free key list, where the emitted
entry (when any) carries the key it was built from. -/
theorem settingsGet_filterMap_not_mem (ks : List String)
    (g : String → Option (String × String))
    (hg : ∀ k p, g k = some p → p.1 = k) (k : String) (hk : k ∉ ks) :
    settingsGet (ks.filterMap g) k = none := by
  induction ks with
  | nil => simp [settingsGet]
  | cons x rest ih =>
      have hkx : k ≠ x := fun h => hk (h ▸ List.mem_cons_self x rest)
      have hkr : k ∉ rest := fun h => hk (List.mem_cons_of_mem x h)
      cases hgx : g x with
      | none => simpa [List.filterMap_cons, hgx] using ih hkr
      | some p =>
          have hp : p.1 = x := hg x p hgx
          simp only [List.filterMap_cons, hgx, settingsGet, ih hkr]
          simp [hp, Ne.symm hkx]

theorem settingsGet_filterMap (ks : List String)
    (g : String → Option (String × String))
    (hg : ∀ k p, g k = some p → p.1 = k) (hnd : ks.Nodup) (k : String) :
    settingsGet (ks.filterMap g) k =
      if k ∈ ks then (g k).map Prod.snd else none := by
  induction ks with
  | nil => simp [settingsGet]
  | cons x rest ih =>
      have hx : x ∉ rest := (List.nodup_cons.mp hnd).1
      have hrest : rest.Nodup := (List.nodup_cons.mp hnd).2
      by_cases hkx : k = x
      · subst hkx
        have hnr : settingsGet (rest.filterMap g) k = none :=
          settingsGet_filterMap_not_mem rest g hg k hx
        cases hgx : g k with
        | none => simp [List.filterMap_cons, hgx, hnr]
        | some p =>
            have hp : p.1 = k := hg k p hgx
            simp [List.filterMap_cons, hgx, settingsGet, hnr, hp]
      · have ihr := ih hrest
        cases hgx : g x with
        | none =>
            simp only [List.filterMap_cons, hgx, ihr, List.mem_cons]
            simp [hkx]
        | some p =>
            have hp : p.1 = x := hg x p hgx
            simp only [List.filterMap_cons, hgx, settingsGet, ihr]
            by_cases hkr : k ∈ rest
            · simp only [hkr, if_true, List.mem_cons, hkx, false_or]
              cases hgk : g k with
              | none => simp [hp, hkx, Ne.symm hkx]
              | some q => simp
            · simp [hkr, hkx, hp, Ne.symm hkx]

theorem settingsKeys_filterMap (ks : List String)
    (g : String → Option (String × String))
    (hg : ∀ k p, g k = some p → p.1 = k) :
    settingsKeys (ks.filterMap g) = ks.filter (fun k => (g k).isSome) := by
  induction ks with
  | nil => simp [settingsKeys]
  | cons x rest ih =>
      cases hgx : g x with
      | none => simp [List.filterMap_cons, hgx, List.filter_cons, ih]
      | some p =>
          have hp : p.1 = x := hg x p hgx
          have ih' : List.map Prod.fst (rest.filterMap g) =
              rest.filter (fun k => (g k).isSome) := ih
          simp [List.filterMap_cons, hgx, List.filter_cons, settingsKeys, hp, ih']

theorem dedupFirst_pairwise_firstIdx (l : List String) :
    (dedupFirst l).Pairwise (fun a b => keyFirstIdx l a < keyFirstIdx l b) := by
  induction l with
  | nil => simp [dedupFirst]
  | cons x rest ih =>
      simp only [dedupFirst, List.pairwise_cons]
      constructor
      · intro b hb
        rcases List.mem_filter.mp hb with ⟨_, hbx⟩
        have hbx' : b ≠ x := by simpa using hbx
        simp [keyFirstIdx, Ne.symm hbx']
      · have hsub : ((dedupFirst rest).filter (fun y => y ≠ x)).Sublist (dedupFirst rest) :=
          List.filter_sublist _
        have hpw := List.Pairwise.sublist hsub ih
        refine List.Pairwise.imp_of_mem ?_ hpw
        intro a b ha hb hab
        have hax : a ≠ x := by simpa using (List.mem_filter.mp ha).2
        have hbx : b ≠ x := by simpa using (List.mem_filter.mp hb).2
        simpa [keyFirstIdx, Ne.symm hax, Ne.symm hbx] using hab

/-! ## The ordered-settings merge

`mergeSettingsSlices` is called throughout the synthesizers (e.g.
`createVirtualBoxISO`, `createAmazonChroot`, `BuilderC.mergeSettings`) but
its own body is not among the provided source files, so it is modelled from
the specification. -/

/-- Modelled from the spec: `mergeSettingsSlices` (the function's body is
missing from src/; only its call sites are present).  Spec §4.1: "merge(old,
new) returns an ordered sequence whose keys are the union of both inputs.
For each key, the value is taken from new if present there, else from old.
Entries are emitted in the order they first appeared across old followed by
new.  An unset marker in new removes the key, except for the reserved key
guest_os_type, which is retained."  An unset marker is a key without a value
(spec §4.1 on `parse`).  The per-key emitted entry: -/
def mergeEntry (old nw : Settings) (k : String) : Option (String × String) :=
  match settingsGet nw k with
  | some v => if v = "" ∧ k ≠ "guest_os_type" then none else some (k, v)
  | none => (settingsGet old k).map (fun v => (k, v))

/-- Modelled from the spec: the merge itself — union of keys in
first-appearance order across `old ++ new`, each key emitted once via
`mergeEntry`. -/
def mergeSettingsSlices (old nw : Settings) : Settings :=
  (dedupFirst (settingsKeys old ++ settingsKeys nw)).filterMap (mergeEntry old nw)

theorem mergeEntry_key (old nw : Settings) (k : String) (p : String × String)
    (h : mergeEntry old nw k = some p) : p.1 = k := by
  unfold mergeEntry at h
  cases hnw : settingsGet nw k with
  | some v =>
      rw [hnw] at h
      by_cases hc : v = "" ∧ k ≠ "guest_os_type"
      · simp [hc] at h
      · simp only [hc, if_false] at h
        cases h
        rfl
  | none =>
      rw [hnw] at h
      cases hold : settingsGet old k with
      | none => rw [hold] at h; simp at h
      | some v => rw [hold] at h; cases h; rfl

theorem mergeSettingsSlices_nodup_keys (old nw : Settings) :
    (settingsKeys (mergeSettingsSlices old nw)).Nodup := by
  unfold mergeSettingsSlices
  rw [settingsKeys_filterMap _ _ (mergeEntry_key old nw)]
  exact (dedupFirst_nodup _).filter _

/-- Lookup characterization of the merge: `new` wins for every key it holds
with a set value (or `guest_os_type`); an unset marker in `new` removes the
key; otherwise `old`'s value survives. -/
theorem settingsGet_mergeSettingsSlices (old nw : Settings) (k : String) :
    settingsGet (mergeSettingsSlices old nw) k =
      (match settingsGet nw k with
       | some v => if v = "" ∧ k ≠ "guest_os_type" then none else some v
       | none => settingsGet old k) := by
  unfold mergeSettingsSlices
  rw [settingsGet_filterMap _ _ (mergeEntry_key old nw) (dedupFirst_nodup _) k]
  by_cases hmem : k ∈ dedupFirst (settingsKeys old ++ settingsKeys nw)
  · simp only [hmem, if_true]
    unfold mergeEntry
    cases hnw : settingsGet nw k with
    | some v =>
        by_cases hc : v = "" ∧ k ≠ "guest_os_type"
        · simp [hc]
        · simp [hc]
    | none => cases hold : settingsGet old k <;> simp
  · simp only [hmem, if_false]
    have hnotin : k ∉ settingsKeys old ++ settingsKeys nw := by
      rw [← dedupFirst_mem]; exact hmem
    have hnold : k ∉ settingsKeys old := fun h => hnotin (List.mem_append_left _ h)
    have hnnw : k ∉ settingsKeys nw := fun h => hnotin (List.mem_append_right _ h)
    rw [settingsGet_eq_none_of_not_mem old k hnold,
      settingsGet_eq_none_of_not_mem nw k hnnw]

/-- C1 (corrected): for every pair of ordered settings sequences `old` and
`nw` and every key `k`, the merge associates `k` with `nw`'s value when `nw`
contains `k` with a set (non-empty) value or `k` is the reserved key
`guest_os_type`; an unset marker (empty value) for `k` in `nw` removes `k`;
otherwise `k` gets `old`'s value when `old` contains it, else `k` is absent.
Every key of the result appears exactly once (the key list is
duplicate-free), and entries are emitted in the order their keys first
appear across `old` followed by `nw` (first-appearance indices are strictly
increasing along the result). -/
theorem mergeSettingsSlices_merge_semantics (old nw : Settings) (k : String) :
    settingsGet (mergeSettingsSlices old nw) k =
      (match settingsGet nw k with
       | some v => if v = "" ∧ k ≠ "guest_os_type" then none else some v
       | none => settingsGet old k)
    ∧ (settingsKeys (mergeSettingsSlices old nw)).Nodup
    ∧ (settingsKeys (mergeSettingsSlices old nw)).Pairwise
        (fun a b => keyFirstIdx (settingsKeys old ++ settingsKeys nw) a <
                    keyFirstIdx (settingsKeys old ++ settingsKeys nw) b) := by
  refine ⟨settingsGet_mergeSettingsSlices old nw k, mergeSettingsSlices_nodup_keys old nw, ?_⟩
  · unfold mergeSettingsSlices
    rw [settingsKeys_filterMap _ _ (mergeEntry_key old nw)]
    exact List.Pairwise.sublist (List.filter_sublist _) (dedupFirst_pairwise_firstIdx _)

/-- C1 counterexample: the claim as stated fails on an unset marker.  With
`old = [a=1]` and `nw = [a=]` (an unset marker for `a`), `nw` contains the
key `a`, so the claim requires the merge to associate `a` with `nw`'s value
`""`; instead the merge removes the key. -/
theorem mergeSettingsSlices_unset_marker_counterexample :
    ¬ settingsGet (mergeSettingsSlices [("a", "1")] [("a", "")]) "a" = some "" := by
  decide

/-! ## Go string primitives

Lean core's `String.splitOn`, `String.trim`, … do not reduce inside the
kernel, so the Go standard-library string functions used by the code are
re-implemented over `List Char` (all feedlot call sites use one-character
separators and suffixes).  `Char.isWhitespace` stands in for Go's
`unicode.IsSpace` (the inputs involved are ASCII). -/

def splitOnChar (c : Char) : List Char → List (List Char)
  | [] => [[]]
  | x :: rest =>
      let r := splitOnChar c rest
      if x = c then [] :: r
      else
        match r with
        | [] => [[x]]
        | h :: t => (x :: h) :: t

/-- Go `strings.Split` with a one-character separator. -/
def goSplit (s : String) (c : Char) : List String :=
  (splitOnChar c s.toList).map List.asString

def trimLeftChars : List Char → List Char
  | [] => []
  | c :: rest => if c.isWhitespace then trimLeftChars rest else c :: rest

def trimChars (cs : List Char) : List Char :=
  ((trimLeftChars ((trimLeftChars cs).reverse)).reverse)

/-- Go `strings.TrimSpace`. -/
def goTrimSpace (s : String) : String := (trimChars s.toList).asString

/-- `listHasPrefix l p` tests whether `p` is a prefix of `l`. -/
def listHasPrefix : List Char → List Char → Bool
  | _, [] => true
  | [], _ :: _ => false
  | x :: xs, y :: ys => x = y && listHasPrefix xs ys

/-- Go `strings.HasPrefix`. -/
def goHasPrefix (s p : String) : Bool := listHasPrefix s.toList p.toList

/-- Go `strings.HasSuffix`. -/
def goHasSuffix (s suf : String) : Bool :=
  listHasPrefix s.toList.reverse suf.toList.reverse

/-- Go `strings.TrimSuffix`. -/
def goTrimSuffix (s suf : String) : String :=
  if goHasSuffix s suf then
    (s.toList.take (s.toList.length - suf.toList.length)).asString
  else s

def listContainsSub (sub : List Char) : List Char → Bool
  | [] => sub.isEmpty
  | x :: rest => listHasPrefix (x :: rest) sub || listContainsSub sub rest

/-- Go `strings.Contains`. -/
def goContains (s sub : String) : Bool := listContainsSub sub.toList s.toList

def digitsToNat (ds : List Char) : Nat :=
  ds.foldl (fun acc c => acc * 10 + (c.toNat - '0'.toNat)) 0

/-- Go `strconv.Atoi`: an optional sign followed by at least one digit;
anything else is a syntax error. -/
def goAtoi (s : String) : Except String Int :=
  let p : Int × List Char :=
    match s.toList with
    | '-' :: rest => (-1, rest)
    | '+' :: rest => (1, rest)
    | cs => (1, cs)
  if p.2 ≠ [] ∧ p.2.all Char.isDigit then .ok (p.1 * digitsToNat p.2)
  else .error ("parsing " ++ s ++ ": invalid syntax")

/-- Go `strconv.ParseBool`, with the error discarded as in
`settings[k], _ = strconv.ParseBool(v)`: the accepted true-literals yield
`true`, everything else yields the zero value `false`. -/
def goParseBoolLax (s : String) : Bool :=
  s = "1" ∨ s = "t" ∨ s = "T" ∨ s = "true" ∨ s = "TRUE" ∨ s = "True"

def breakAtChar (c : Char) : List Char → List Char × Option (List Char)
  | [] => ([], none)
  | x :: rest =>
      if x = c then ([], some rest)
      else
        let (pre, post) := breakAtChar c rest
        (x :: pre, post)

/-- Modelled from the spec: `parseVar` (the function's body is missing from
src/; only call sites are).  Spec §4.1: `parse(entry)` splits a string of
the form `key = value` (whitespace around `=` tolerated) into `(key,
value)`; a key without a value (`key=` or `key`) yields an empty value. -/
def parseVar (s : String) : String × String :=
  let (k, v) := breakAtChar '=' s.toList
  ((trimChars k).asString,
   match v with
   | none => ""
   | some cs => (trimChars cs).asString)

/-! ## Dynamic Go values

Component `Arrays` values and synthesized settings maps hold Go
`interface{}` values; the dynamic types that occur in the code are embedded
as constructors. -/

inductive GoVal where
  | str : String → GoVal
  | int : Int → GoVal
  | bool : Bool → GoVal
  | strSlice : List String → GoVal
  | strSliceSlice : List (List String) → GoVal
  | ifaceSlice : List GoVal → GoVal

/-! ## Builder components and the common-builder overlay -/

/-- `BuilderC` embeds the builder component record: its `TemplateSection`
carries `Type`, `Settings` (ordered `key=value` entries, here pre-parsed)
and `Arrays` (Go field `Type` is spelled `typ`; `Type` is reserved in
Lean). -/
structure BuilderC where
  typ : String
  settings : Settings
  arrays : List (String × GoVal)

/-- `BuilderC.mergeSettings` (part_004 / `ranchr/cfg.go`): replaces the
builder's settings with the merge of the existing settings (old) and the
passed ones (new). -/
def BuilderC.mergeSettings (b : BuilderC) (nw : Settings) : BuilderC :=
  { b with settings := mergeSettingsSlices b.settings nw }

/-- `RawTemplate.updateCommon` (part_004 lines 3584–3602, and the same code
in `app/raw_template_builders.go` lines 1612–1629): when no `common` builder
exists yet, the named build's common section is installed as-is; otherwise
the code executes `b.mergeSettings(b.Settings)` — merging the existing
common section with *its own* settings — and stores the result, leaving the
passed `newB` unused on that path. -/
def updateCommon (builders : List (String × BuilderC)) (newB : BuilderC) :
    List (String × BuilderC) :=
  match assocGet builders "common" with
  | none => assocSet builders "common" ⟨newB.typ, newB.settings, newB.arrays⟩
  | some b => assocSet builders "common" (b.mergeSettings b.settings)

/-- In isolation, `updateCommon` merges an existing common section with its
own settings and leaves the passed named-build section unused — with
existing `ssh_username=vagrant` and a named-build common section
`[ssh_username=docker, headless=true]`, its direct result still maps
`ssh_username` to `vagrant` and lacks `headless`.  This slip is masked at
the overlay level: the only caller, `updateBuilders`, re-merges the
`common` entry with the named build's settings in its main loop (see
the C2 theorem below). -/
theorem updateCommon_self_merge_in_isolation :
    (assocGet
        (updateCommon [("common", ⟨"common", [("ssh_username", "vagrant")], []⟩)]
          ⟨"common", [("ssh_username", "docker"), ("headless", "true")], []⟩)
        "common").map
      (fun b => (settingsGet b.settings "ssh_username", settingsGet b.settings "headless"))
      = some (some "vagrant", none) := by
  decide

/-- Modelled from the spec: `TemplateSection.mergeArrays` (its body is not
among the provided source files; `TestTemplateSectionMergeArrays`, part_003
lines 482–562, exercises it).  Spec §4.4 step 3 with the §4.1 rules: the
named build's array entries supersede the existing ones per array name;
names only in the existing section are kept (matching the test: a `nil`
argument keeps the old arrays, a common name is replaced wholesale). -/
def BuilderC.mergeArrays (b : BuilderC) (nw : List (String × GoVal)) : BuilderC :=
  { b with arrays := nw.foldl (fun acc p => assocSet acc p.1 p.2) b.arrays }

/-- One iteration of `updateBuilders`' main loop (part_004 lines 3551–3569)
over a key `v` of the merged key set: a key missing from the old builders is
copied from `newB` (`bb.Copy()`); a key missing from `newB` is skipped; a
key in both is updated to `b.mergeSettings(bb.Settings)` followed by
`b.mergeArrays(bb.Arrays)`. -/
def updateBuildersStep (newB : List (String × BuilderC))
    (acc : List (String × BuilderC)) (v : String) : List (String × BuilderC) :=
  match assocGet acc v with
  | none =>
      match assocGet newB v with
      | some bb => assocSet acc v bb
      | none => acc
  | some b =>
      match assocGet newB v with
      | none => acc
      | some bb => assocSet acc v ((b.mergeSettings bb.settings).mergeArrays bb.arrays)

/-- `RawTemplate.updateBuilders` (part_004 lines 3528–3573): nothing happens
for an empty `newB`; otherwise the key set of both builder maps is merged
(`mergeKeysFromComponentMaps`; Go map iteration order is unspecified, the
model fixes first-appearance order), `updateCommon` runs first when `newB`
has a `common` entry, and the main loop then processes every key — including
`common`, which exists in both maps, so it is re-merged with the named
build's settings and arrays. -/
def updateBuilders (builders newB : List (String × BuilderC)) :
    List (String × BuilderC) :=
  if newB.isEmpty then builders
  else
    let keys := dedupFirst (builders.map Prod.fst ++ newB.map Prod.fst)
    let bs :=
      match assocGet newB "common" with
      | some nb => updateCommon builders nb
      | none => builders
    keys.foldl (updateBuildersStep newB) bs

theorem assocGet_mem_keys {α : Type} (l : List (String × α)) (k : String) (v : α)
    (h : assocGet l k = some v) : k ∈ l.map Prod.fst := by
  induction l with
  | nil => simp [assocGet] at h
  | cons p rest ih =>
      by_cases hp : p.1 = k
      · simp [hp]
      · simp only [assocGet, hp, if_false] at h
        simp [ih h]

theorem updateBuildersStep_preserves_common (newB : List (String × BuilderC))
    (acc : List (String × BuilderC)) (v : String) (hv : v ≠ "common") :
    assocGet (updateBuildersStep newB acc v) "common" = assocGet acc "common" := by
  unfold updateBuildersStep
  cases hacc : assocGet acc v with
  | none =>
      cases hnb : assocGet newB v with
      | none => rfl
      | some bb => exact assocGet_assocSet_ne _ _ _ _ (Ne.symm hv)
  | some b =>
      cases hnb : assocGet newB v with
      | none => rfl
      | some bb => exact assocGet_assocSet_ne _ _ _ _ (Ne.symm hv)

theorem updateBuilders_foldl_no_common (newB : List (String × BuilderC))
    (ks : List String) (acc : List (String × BuilderC)) (h : "common" ∉ ks) :
    assocGet (ks.foldl (updateBuildersStep newB) acc) "common" = assocGet acc "common" := by
  induction ks generalizing acc with
  | nil => rfl
  | cons v rest ih =>
      have hv : v ≠ "common" := fun hvc => h (hvc ▸ List.mem_cons_self v rest)
      have hrest : "common" ∉ rest := fun hm => h (List.mem_cons_of_mem v hm)
      rw [List.foldl_cons, ih _ hrest, updateBuildersStep_preserves_common _ _ _ hv]

theorem updateBuilders_foldl_common (newB : List (String × BuilderC)) (nb : BuilderC)
    (hnb : assocGet newB "common" = some nb) (ks : List String) (hnd : ks.Nodup)
    (hmem : "common" ∈ ks) (acc : List (String × BuilderC)) (b : BuilderC)
    (hb : assocGet acc "common" = some b) :
    assocGet (ks.foldl (updateBuildersStep newB) acc) "common" =
      some ((b.mergeSettings nb.settings).mergeArrays nb.arrays) := by
  induction ks generalizing acc b with
  | nil => simp at hmem
  | cons v rest ih =>
      by_cases hveq : v = "common"
      · subst hveq
        have hrest : "common" ∉ rest := (List.nodup_cons.mp hnd).1
        have hstep : updateBuildersStep newB acc "common" =
            assocSet acc "common" ((b.mergeSettings nb.settings).mergeArrays nb.arrays) := by
          simp [updateBuildersStep, hb, hnb]
        rw [List.foldl_cons, hstep, updateBuilders_foldl_no_common _ _ _ hrest,
          assocGet_assocSet_self]
      · have hmem' : "common" ∈ rest := by
          rcases List.mem_cons.mp hmem with h | h
          · exact absurd h.symm hveq
          · exact h
        have hb' : assocGet (updateBuildersStep newB acc v) "common" = some b := by
          rw [updateBuildersStep_preserves_common _ _ _ hveq, hb]
        rw [List.foldl_cons]
        exact ih (List.nodup_cons.mp hnd).2 hmem' _ _ hb'

/-- C2 (confirmed): overlaying a named build onto a working template merges
the common builder section per the §4.1 rules.  When both the existing
template and the named build carry a `common` section, `updateBuilders`
first runs `updateCommon` and then re-merges the `common` key — present in
both maps — with the named build's settings in its main loop, so every key
the named build's common section holds with a set value (or
`guest_os_type`) ends up with the named build's value: keys present in both
take the named build's value, and keys present only in the named build are
added. -/
theorem updateBuilders_common_overlay (builders newB : List (String × BuilderC))
    (oldC nb : BuilderC) (k v : String)
    (hold : assocGet builders "common" = some oldC)
    (hnew : assocGet newB "common" = some nb)
    (hk : settingsGet nb.settings k = some v)
    (hset : v ≠ "" ∨ k = "guest_os_type") :
    ∃ c, assocGet (updateBuilders builders newB) "common" = some c
      ∧ settingsGet c.settings k = some v := by
  have hnempty : newB.isEmpty = false := by
    cases newB with
    | nil => simp [assocGet] at hnew
    | cons p rest => rfl
  have hmemn : "common" ∈ newB.map Prod.fst := assocGet_mem_keys _ _ _ hnew
  have hmemk : "common" ∈ dedupFirst (builders.map Prod.fst ++ newB.map Prod.fst) :=
    (dedupFirst_mem _ _).mpr (List.mem_append_right _ hmemn)
  have hbs : assocGet (updateCommon builders nb) "common" =
      some (oldC.mergeSettings oldC.settings) := by
    unfold updateCommon
    rw [hold]
    exact assocGet_assocSet_self _ _ _
  refine ⟨((oldC.mergeSettings oldC.settings).mergeSettings nb.settings).mergeArrays
    nb.arrays, ?_, ?_⟩
  · unfold updateBuilders
    rw [hnempty, hnew]
    exact updateBuilders_foldl_common newB nb hnew _ (dedupFirst_nodup _) hmemk _ _ hbs
  · show settingsGet (mergeSettingsSlices
      (mergeSettingsSlices oldC.settings oldC.settings) nb.settings) k = some v
    rw [settingsGet_mergeSettingsSlices, hk]
    have hcond : ¬ (v = "" ∧ k ≠ "guest_os_type") := by
      rcases hset with h | h
      · exact fun hc => h hc.1
      · exact fun hc => hc.2 h
    simp [hcond]

/-- Witness for `updateBuilders_common_overlay`: with existing common
settings `[ssh_username=vagrant]` and a named-build common section
`[ssh_username=docker, headless=true]`, the overlaid common section maps
`ssh_username` to `docker` (named build wins on a key present in both) and
`headless` to `true` (a key only in the named build is added). -/
theorem updateBuilders_common_overlay_witness :
    (∃ c, assocGet (updateBuilders
        [("common", ⟨"common", [("ssh_username", "vagrant")], []⟩)]
        [("common", ⟨"common", [("ssh_username", "docker"), ("headless", "true")], []⟩)])
        "common" = some c ∧ settingsGet c.settings "ssh_username" = some "docker")
    ∧ (∃ c, assocGet (updateBuilders
        [("common", ⟨"common", [("ssh_username", "vagrant")], []⟩)]
        [("common", ⟨"common", [("ssh_username", "docker"), ("headless", "true")], []⟩)])
        "common" = some c ∧ settingsGet c.settings "headless" = some "true") := by
  constructor
  · exact updateBuilders_common_overlay _ _ _ _ "ssh_username" "docker"
      rfl rfl (by decide) (Or.inl (by decide))
  · exact updateBuilders_common_overlay _ _ _ _ "headless" "true"
      rfl rfl (by decide) (Or.inl (by decide))

/-! ## CentOS ISO discovery (part_001 / `ranchr/release.go`)

HTTP is embedded as an explicit `fetch : String → String` argument standing
for a successful `getStringFromURL`, and the process-wide PRNG as a draw
`r : Nat`. -/

/-- `centOS.isoRedirectURL` (part_001 lines 72–80). -/
def isoRedirectURL (release arch : String) : String :=
  "http://isoredirect.centos.org/centos/" ++ release ++ "/isos/" ++ arch ++ "/"

/-- `centOS.setReleaseNumber` (part_001 lines 142–164): URL of the
mirrorlist queried for the current full release. -/
def mirrorlistURL (release arch : String) : String :=
  "http://mirrorlist.centos.org/?release=" ++ release ++ "&arch=" ++ arch ++ "&repo=os"

/-- `centOS.setReleaseNumber` (part_001 lines 142–164): fetch the
mirrorlist page for the release and arch, split it into lines, split the
first line on `/`, and adopt `urlParts[len(urlParts)-4]` — the 4th-from-last
segment — as the full release.  `none` embeds the index-out-of-range panic
the Go code would hit when the first line has fewer than four segments. -/
def setReleaseNumber (fetch : String → String) (release arch : String) : Option String :=
  let page := fetch (mirrorlistURL release arch)
  let lines := goSplit page '\n'
  let urlParts := goSplit (lines.headD "") '/'
  if 4 ≤ urlParts.length then some (urlParts.getD (urlParts.length - 4) "") else none

/-- `centOS.setReleaseInfo` (part_001 lines 122–138), returning the pair
`(Release, ReleaseFull)`: a dotted release `N.M` is adopted as the full
release with `Release` reset to its first component; a bare release defers
to `setReleaseNumber`. -/
def setReleaseInfo (fetch : String → String) (release arch : String) :
    Option (String × String) :=
  let version := goSplit release '.'
  if 1 < version.length then some (version.headD "", release)
  else (setReleaseNumber fetch release arch).map (fun full => (release, full))

/-- The href-collection filter inside `centOS.randomISOURL` (part_001 lines
264–276): keep every anchor `href` value that contains the arch and does not
contain `ftp://`.  `hrefs` abstracts the href attributes of the anchor nodes
of the parsed isoredirect page, in document order. -/
def collectISOURLs (hrefs : List String) (arch : String) : List String :=
  hrefs.filter (fun v => goContains v arch && !goContains v "ftp://")

/-- Go `rand.Intn`: panics (embedded as `none`) when `n = 0` (more generally
when `n ≤ 0`), otherwise a uniform value in `[0, n)`; `r` is the PRNG
draw. -/
def randIntn (r n : Nat) : Option Nat := if n = 0 then none else some (r % n)

inductive URLResult where
  | panic : URLResult
  | err : String → URLResult
  | ok : String → URLResult
  deriving DecidableEq

/-- `centOS.randomISOURL` (part_001 lines 251–290, `ranchr/release.go` lines
246–285): collect the qualifying hrefs; error when none; otherwise select
`isoURLs[rand.Intn(len(isoURLs)-1)]`, trim a trailing newline, and append
the ISO name. -/
def randomISOURL (hrefs : List String) (arch name : String) (r : Nat) : URLResult :=
  let isoURLs := collectISOURLs hrefs arch
  if isoURLs.length < 1 then .err "no valid iso URLs were found"
  else
    match randIntn r (isoURLs.length - 1) with
    | none => .panic
    | some i => .ok (goTrimSuffix (isoURLs.getD i "") "\n" ++ name)

/-- C3 (code_bug evidence): the selection `rand.Intn(len-1)` is *not* safe
on every non-empty candidate list, and cannot select every candidate: on a
single-candidate list it evaluates `rand.Intn(0)`, which panics, for every
PRNG draw; and for every list of `n ≥ 2` candidates the drawn index is
always `< n - 1`, so the last candidate is never selected.  (Spec §9 notes
this as the code's slip and mandates `rand.Intn(len)`.) -/
theorem randomISOURL_panics_on_singleton_and_skips_last :
    (∀ r, randomISOURL ["http://mirror.example/7/isos/x86_64/\n"] "x86_64"
        "CentOS-7-x86_64-Minimal.iso" r = .panic)
    ∧ (∀ r n, 2 ≤ n → ∀ i, randIntn r (n - 1) = some i → i < n - 1) := by
  constructor
  · intro r
    rfl
  · intro r n h2 i hi
    have hn : n - 1 ≠ 0 := by omega
    simp only [randIntn, hn, if_false, Option.some.injEq] at hi
    subst hi
    exact Nat.mod_lt _ (by omega)

/-- Witness for `randomISOURL_panics_on_singleton_and_skips_last` at the
draw `r = 0` and candidate count `n = 2`. -/
theorem randomISOURL_panics_on_singleton_and_skips_last_witness :
    randomISOURL ["http://mirror.example/7/isos/x86_64/\n"] "x86_64"
        "CentOS-7-x86_64-Minimal.iso" 0 = .panic ∧ (0 : Nat) < 2 - 1 :=
  ⟨randomISOURL_panics_on_singleton_and_skips_last.1 0,
   randomISOURL_panics_on_singleton_and_skips_last.2 0 2 (by decide) 0 (by rfl)⟩

/-- C6 (confirmed): centos full-release resolution.  A dotted release `N.M`
(its split on `.` has more than one part) is adopted as the full release
and `Release` becomes its first component `N`; a bare major version is
resolved by fetching the mirrorlist page for that release and arch, taking
its first line, splitting on `/`, and adopting the 4th-from-last path
segment as the full release (provided the line has at least four
segments). -/
theorem setReleaseInfo_resolution (fetch : String → String) (release arch : String) :
    (1 < (goSplit release '.').length →
      setReleaseInfo fetch release arch = some ((goSplit release '.').headD "", release))
    ∧ (¬ 1 < (goSplit release '.').length →
      ∀ parts : List String,
        parts = goSplit ((goSplit (fetch (mirrorlistURL release arch)) '\n').headD "") '/' →
        4 ≤ parts.length →
        setReleaseInfo fetch release arch =
          some (release, parts.getD (parts.length - 4) "")) := by
  constructor
  · intro h
    simp [setReleaseInfo, h]
  · intro h parts hparts hlen
    subst hparts
    have hlen' : 4 ≤ (goSplit ((goSplit (fetch (mirrorlistURL release arch))
        '\n').head?.getD "") '/').length := by simpa using hlen
    simp [setReleaseInfo, setReleaseNumber, h, hlen']

/-- Witness for `setReleaseInfo_resolution`: the dotted release `7.8.2003`
is adopted as-is, and the bare release `7` adopts the 4th-from-last segment
of the first mirrorlist line
(`http://mirror.centos.org/centos/7.8.2003/os/x86_64/`). -/
theorem setReleaseInfo_resolution_witness :
    setReleaseInfo (fun _ => "") "7.8.2003" "x86_64" = some ("7", "7.8.2003")
    ∧ setReleaseInfo
        (fun _ => "http://mirror.centos.org/centos/7.8.2003/os/x86_64/\nsecond line")
        "7" "x86_64" = some ("7", "7.8.2003") := by
  constructor
  · exact (setReleaseInfo_resolution (fun _ => "") "7.8.2003" "x86_64").1 (by decide)
  · have h := (setReleaseInfo_resolution
        (fun _ => "http://mirror.centos.org/centos/7.8.2003/os/x86_64/\nsecond line")
        "7" "x86_64").2 (by decide) _ rfl (by decide)
    simpa using h

/-! ## Multi-line command joining (`commandFromSlice`, part_004 lines
3656–3675) -/

/-- The processing loop of `commandFromSlice`: each line is
whitespace-trimmed; a line without a trailing `\` ends the command (the
remaining lines are ignored); a trailing `\` is stripped and concatenation
continues.  `cmd` is the accumulator. -/
def commandJoin : List String → String → String
  | [], cmd => cmd
  | line :: rest, cmd =>
      let t := goTrimSpace line
      if !goHasSuffix t "\\" then cmd ++ t
      else commandJoin rest (cmd ++ goTrimSuffix t "\\")

/-- `commandFromSlice` (part_004 lines 3656–3675): an empty slice yields
`""`; a single-element slice is returned as the command *without any
additional processing*; otherwise the lines are joined by `commandJoin`. -/
def commandFromSlice : List String → String
  | [] => ""
  | [l] => l
  | lines => commandJoin lines ""

/-- Concatenation of a list of strings (Go's successive `cmd += …`). -/
def strJoin : List String → String
  | [] => ""
  | s :: rest => s ++ strJoin rest

theorem commandJoin_all_continued (lines : List String) (cmd : String)
    (h : ∀ l ∈ lines, goHasSuffix (goTrimSpace l) "\\" = true) :
    commandJoin lines cmd =
      cmd ++ strJoin (lines.map fun l => goTrimSuffix (goTrimSpace l) "\\") := by
  induction lines generalizing cmd with
  | nil => simp [commandJoin, strJoin]
  | cons line rest ih =>
      have hl := h line (List.mem_cons_self _ _)
      have hrest : ∀ l ∈ rest, goHasSuffix (goTrimSpace l) "\\" = true :=
        fun l hm => h l (List.mem_cons_of_mem _ hm)
      simp only [commandJoin, hl, Bool.not_true, ih _ hrest, List.map_cons, strJoin]
      simp [String.append_assoc]

theorem commandJoin_stops_at_first_uncontinued (pre : List String) (l : String)
    (suf : List String) (cmd : String)
    (hpre : ∀ p ∈ pre, goHasSuffix (goTrimSpace p) "\\" = true)
    (hl : goHasSuffix (goTrimSpace l) "\\" = false) :
    commandJoin (pre ++ l :: suf) cmd =
      cmd ++ strJoin (pre.map fun p => goTrimSuffix (goTrimSpace p) "\\")
        ++ goTrimSpace l := by
  induction pre generalizing cmd with
  | nil => simp [commandJoin, hl, strJoin]
  | cons p rest ih =>
      have hp := hpre p (List.mem_cons_self _ _)
      have hrest : ∀ q ∈ rest, goHasSuffix (goTrimSpace q) "\\" = true :=
        fun q hm => hpre q (List.mem_cons_of_mem _ hm)
      have step : commandJoin ((p :: rest) ++ l :: suf) cmd
          = commandJoin (rest ++ l :: suf) (cmd ++ goTrimSuffix (goTrimSpace p) "\\") := by
        simp [commandJoin, hp]
      rw [step, ih _ hrest, List.map_cons]
      simp only [strJoin]
      simp [String.append_assoc]

/-- C5 (corrected, for slices of at least two lines): each line is trimmed
of surrounding whitespace; a trailing backslash is stripped and the line is
concatenated with the next; the first line without a trailing backslash
terminates the command (later lines are ignored); and when every line ends
in a trailing backslash the result is the concatenation of the trimmed
bodies.  (A single-line slice is returned verbatim — see the
counterexample.) -/
theorem commandFromSlice_join (lines : List String) (h2 : 2 ≤ lines.length) :
    ((∀ l ∈ lines, goHasSuffix (goTrimSpace l) "\\" = true) →
      commandFromSlice lines =
        strJoin (lines.map fun l => goTrimSuffix (goTrimSpace l) "\\"))
    ∧ (∀ pre l suf, lines = pre ++ l :: suf →
        (∀ p ∈ pre, goHasSuffix (goTrimSpace p) "\\" = true) →
        goHasSuffix (goTrimSpace l) "\\" = false →
        commandFromSlice lines =
          strJoin (pre.map fun p => goTrimSuffix (goTrimSpace p) "\\")
            ++ goTrimSpace l) := by
  match lines, h2 with
  | a :: b :: rest, _ =>
    have heq : commandFromSlice (a :: b :: rest) = commandJoin (a :: b :: rest) "" := rfl
    constructor
    · intro h
      rw [heq, commandJoin_all_continued _ _ h]
      simp
    · intro pre l suf hsplit hpre hl
      rw [heq, hsplit, commandJoin_stops_at_first_uncontinued pre l suf "" hpre hl]
      simp

/-- Witness for `commandFromSlice_join`: both conjuncts at two-line
slices. -/
theorem commandFromSlice_join_witness :
    commandFromSlice ["a\\", "b\\"] = "ab"
    ∧ commandFromSlice ["a \\", " b"] = "a b" := by
  constructor
  · exact ((commandFromSlice_join ["a\\", "b\\"] (by decide)).1 (by decide)).trans (by decide)
  · exact ((commandFromSlice_join ["a \\", " b"] (by decide)).2 ["a \\"] " b" []
      rfl (by decide) (by decide)).trans (by decide)

/-- C5 counterexample: a single-line command file whose only line ends in a
trailing backslash is returned verbatim — not trimmed, the backslash not
stripped — so the joined result of a slice whose lines all end in `\` can
retain a trailing `\`, contradicting the claim as stated. -/
theorem commandFromSlice_single_line_counterexample :
    commandFromSlice ["shutdown -h now \\"] = "shutdown -h now \\"
    ∧ goHasSuffix (commandFromSlice ["shutdown -h now \\"]) "\\" = true := by
  decide

/-! ## virtualbox-iso ISO resolution (`createVirtualBoxISO`, part_004 lines
2362–2641)

The embedding covers the ISO bookkeeping of the builder: the settings walk
sets `hasISOURL` / `hasChecksum` / `hasChecksumType` when it parses an
`iso_url` / `iso_checksum` / `iso_checksum_type` entry; the arrays pass sets
`hasISOURL` when an `iso_urls` array is present (and `iso_url` was not); the
tail (lines 2611–2641) then either pulls the triple from the distro's ISO
release object or requires the checksum settings. -/

inductive BuilderSettingErr where
  | requiredSetting : String → BuilderSettingErr
  | unsupportedDistro : String → BuilderSettingErr
  deriving DecidableEq

/-- The distro ISO release object's fields consumed by the builders
(`imageURL()`, `Checksum`, `ChecksumType`). -/
structure ISORelease where
  imageURL : String
  checksum : String
  checksumType : String

/-- The `hasISOURL` / `hasChecksum` / `hasChecksumType` bookkeeping of the
settings walk of `createVirtualBoxISO` (cases `iso_url`, `iso_checksum`,
`iso_checksum_type` of the switch, part_004 lines 2453–2466). -/
def vboxISOScan : List String → Bool × Bool × Bool
  | [] => (false, false, false)
  | s :: rest =>
      let r := vboxISOScan rest
      let k := (parseVar s).1
      (r.1 || k == "iso_url", r.2.1 || k == "iso_checksum", r.2.2 || k == "iso_checksum_type")

theorem vboxISOScan_eq_any (ws : List String) :
    vboxISOScan ws = (ws.any (fun s => (parseVar s).1 == "iso_url"),
                      ws.any (fun s => (parseVar s).1 == "iso_checksum"),
                      ws.any (fun s => (parseVar s).1 == "iso_checksum_type")) := by
  induction ws with
  | nil => rfl
  | cons s rest ih => simp [vboxISOScan, ih, List.any_cons, Bool.or_comm]

/-- The ISO-resolution tail of `createVirtualBoxISO` (part_004 lines
2546–2566 for the `iso_urls` array and 2611–2641 for the tail): when
neither `iso_url` nor an `iso_urls` array was supplied, the `iso_url`,
`iso_checksum` and `iso_checksum_type` settings are taken from the distro's
ISO release object (unknown distros error); otherwise `iso_checksum` and
`iso_checksum_type` are required, in that order.  `arrayNames` holds the
names of the builder's non-nil `Arrays` entries. -/
def virtualBoxISOResolve (ws arrayNames : List String) (distro : String)
    (rel : ISORelease) (settings : List (String × GoVal)) :
    Except BuilderSettingErr (List (String × GoVal)) :=
  let scan := vboxISOScan ws
  let hasISOURL := scan.1 || arrayNames.contains "iso_urls"
  if !hasISOURL then
    if distro == "centos" || distro == "debian" || distro == "ubuntu" then
      .ok (assocSet (assocSet (assocSet settings "iso_url" (.str rel.imageURL))
            "iso_checksum" (.str rel.checksum)) "iso_checksum_type" (.str rel.checksumType))
    else .error (.unsupportedDistro distro)
  else if !scan.2.1 then .error (.requiredSetting "iso_checksum")
  else if !scan.2.2 then .error (.requiredSetting "iso_checksum_type")
  else .ok settings

/-- C4 (confirmed): for a virtualbox-iso builder whose merged settings set
`iso_url`: a missing `iso_checksum` fails with the missing-required error
naming `iso_checksum`; a missing `iso_checksum_type` (with `iso_checksum`
present) fails naming `iso_checksum_type` — ISO discovery is not consulted
to fill them.  Conversely, when neither `iso_url` nor an `iso_urls` array
was supplied (for a supported distro), the emitted `iso_url`,
`iso_checksum` and `iso_checksum_type` come from the distro's ISO release
object. -/
theorem createVirtualBoxISO_iso_resolution (ws arrayNames : List String)
    (distro : String) (rel : ISORelease) (settings : List (String × GoVal)) :
    ((∃ s ∈ ws, (parseVar s).1 = "iso_url") →
      ((∀ s ∈ ws, (parseVar s).1 ≠ "iso_checksum") →
        virtualBoxISOResolve ws arrayNames distro rel settings =
          .error (.requiredSetting "iso_checksum"))
      ∧ ((∃ s ∈ ws, (parseVar s).1 = "iso_checksum") →
          (∀ s ∈ ws, (parseVar s).1 ≠ "iso_checksum_type") →
          virtualBoxISOResolve ws arrayNames distro rel settings =
            .error (.requiredSetting "iso_checksum_type")))
    ∧ ((∀ s ∈ ws, (parseVar s).1 ≠ "iso_url") → arrayNames.contains "iso_urls" = false →
        (distro = "centos" ∨ distro = "debian" ∨ distro = "ubuntu") →
        ∃ out, virtualBoxISOResolve ws arrayNames distro rel settings = .ok out
          ∧ assocGet out "iso_url" = some (.str rel.imageURL)
          ∧ assocGet out "iso_checksum" = some (.str rel.checksum)
          ∧ assocGet out "iso_checksum_type" = some (.str rel.checksumType)) := by
  constructor
  · intro hurl
    have hu : ws.any (fun s => (parseVar s).1 == "iso_url") = true := by
      rcases hurl with ⟨s, hs, hk⟩
      exact List.any_eq_true.mpr ⟨s, hs, by simp [hk]⟩
    constructor
    · intro hnoc
      have hc : ws.any (fun s => (parseVar s).1 == "iso_checksum") = false := by
        rw [List.any_eq_false]
        intro s hs
        simp [hnoc s hs]
      simp [virtualBoxISOResolve, vboxISOScan_eq_any, hu, hc]
    · intro hcsum hnot
      have hc : ws.any (fun s => (parseVar s).1 == "iso_checksum") = true := by
        rcases hcsum with ⟨s, hs, hk⟩
        exact List.any_eq_true.mpr ⟨s, hs, by simp [hk]⟩
      have ht : ws.any (fun s => (parseVar s).1 == "iso_checksum_type") = false := by
        rw [List.any_eq_false]
        intro s hs
        simp [hnot s hs]
      simp [virtualBoxISOResolve, vboxISOScan_eq_any, hu, hc, ht]
  · intro hnourl harr hdistro
    have hu : ws.any (fun s => (parseVar s).1 == "iso_url") = false := by
      rw [List.any_eq_false]
      intro s hs
      simp [hnourl s hs]
    have hd : (distro == "centos" || distro == "debian" || distro == "ubuntu") = true := by
      rcases hdistro with h | h | h <;> simp [h]
    refine ⟨assocSet (assocSet (assocSet settings "iso_url" (.str rel.imageURL))
      "iso_checksum" (.str rel.checksum)) "iso_checksum_type" (.str rel.checksumType),
      ?_, ?_, ?_, ?_⟩
    · have harr' : "iso_urls" ∉ arrayNames := by simpa using harr
      simp [virtualBoxISOResolve, vboxISOScan_eq_any, hu, harr', hd]
    · rw [assocGet_assocSet_ne _ _ _ _ (by decide), assocGet_assocSet_ne _ _ _ _ (by decide)]
      exact assocGet_assocSet_self _ _ _
    · rw [assocGet_assocSet_ne _ _ _ _ (by decide)]
      exact assocGet_assocSet_self _ _ _
    · exact assocGet_assocSet_self _ _ _

/-- Witness for `createVirtualBoxISO_iso_resolution`: with `iso_url` set and
`iso_checksum` absent the missing-required error names `iso_checksum`; with
neither `iso_url` nor `iso_urls` the triple comes from the release
object. -/
theorem createVirtualBoxISO_iso_resolution_witness :
    virtualBoxISOResolve ["iso_url = http://example.com/x.iso"] [] "ubuntu"
        ⟨"http://rel/u.iso", "abc123", "sha256"⟩ [] =
      .error (.requiredSetting "iso_checksum")
    ∧ ∃ out, virtualBoxISOResolve ["ssh_username = vagrant"] [] "ubuntu"
          ⟨"http://rel/u.iso", "abc123", "sha256"⟩ [] = .ok out
        ∧ assocGet out "iso_url" = some (.str "http://rel/u.iso")
        ∧ assocGet out "iso_checksum" = some (.str "abc123")
        ∧ assocGet out "iso_checksum_type" = some (.str "sha256") := by
  constructor
  · exact ((createVirtualBoxISO_iso_resolution ["iso_url = http://example.com/x.iso"] []
      "ubuntu" ⟨"http://rel/u.iso", "abc123", "sha256"⟩ []).1 (by decide)).1 (by decide)
  · exact (createVirtualBoxISO_iso_resolution ["ssh_username = vagrant"] [] "ubuntu"
      ⟨"http://rel/u.iso", "abc123", "sha256"⟩ []).2 (by decide) (by decide)
      (Or.inr (Or.inr rfl))

/-! ## HTTP directory handling (`setHTTP`, part_004 lines 3608–3631)

`findSource`, `buildOutPath` and `buildTemplateResourcePath` are methods of
the raw template whose bodies are not among the provided source files; they
enter the embedding as explicit function parameters (`find` resolving a
(path, component, is-dir) triple, and the two output-path builders). -/

/-- `RawTemplate.setHTTP` (part_004 lines 3608–3631): when the settings map
has no `http_directory` key the literal `"http"` is assumed; a non-string
value errors; the value is resolved as a directory through the source
resolver; a non-empty resolved source is recorded in the
scheduled-directory ledger `dirs` under `buildOutPath("", v)` (an empty
source — the example-mode result — is not recorded); and the emitted
`http_directory` is rewritten to `buildTemplateResourcePath("", v, false)`. -/
def setHTTP (find : String → String → Bool → Except String String)
    (buildOutPath : String → String → String)
    (buildTemplateResourcePath : String → String → Bool → String)
    (component : String) (m : List (String × GoVal)) (dirs : List (String × String)) :
    Except String (List (String × GoVal) × List (String × String)) :=
  let v := (assocGet m "http_directory").getD (.str "http")
  match v with
  | .str val =>
      match find val component true with
      | .error e => .error ("setHTTP error: " ++ e)
      | .ok src =>
          let dirs' := if src = "" then dirs else assocSet dirs (buildOutPath "" val) src
          .ok (assocSet m "http_directory"
                (.str (buildTemplateResourcePath "" val false)), dirs')
  | _ => .error "http_directory: expected string"

/-- C7 (confirmed): when the synthesized settings map contains no
`http_directory` key, `setHTTP` assumes the literal `"http"`, resolves it
through the source resolver as a directory, records the resolved source in
the scheduled-directory ledger keyed by the computed output path, rewrites
the emitted `http_directory` value to the output-tree relative form, and
leaves every other setting unchanged. -/
theorem setHTTP_assumes_http (find : String → String → Bool → Except String String)
    (buildOutPath : String → String → String)
    (buildTemplateResourcePath : String → String → Bool → String)
    (component : String) (m : List (String × GoVal)) (dirs : List (String × String))
    (src : String)
    (hmiss : assocGet m "http_directory" = none)
    (hfind : find "http" component true = Except.ok src)
    (hsrc : src ≠ "") :
    ∃ m' dirs',
      setHTTP find buildOutPath buildTemplateResourcePath component m dirs =
        .ok (m', dirs')
      ∧ assocGet m' "http_directory" =
          some (.str (buildTemplateResourcePath "" "http" false))
      ∧ assocGet dirs' (buildOutPath "" "http") = some src
      ∧ (∀ k, k ≠ "http_directory" → assocGet m' k = assocGet m k) := by
  refine ⟨assocSet m "http_directory" (.str (buildTemplateResourcePath "" "http" false)),
    assocSet dirs (buildOutPath "" "http") src, ?_, ?_, ?_, ?_⟩
  · simp [setHTTP, hmiss, hfind, hsrc]
  · exact assocGet_assocSet_self _ _ _
  · exact assocGet_assocSet_self _ _ _
  · intro k hk
    exact assocGet_assocSet_ne _ _ _ _ hk

/-- Witness for `setHTTP_assumes_http` at a concrete resolver and
settings map. -/
theorem setHTTP_assumes_http_witness :
    ∃ m' dirs',
      setHTTP (fun p c _ => .ok ("src/" ++ c ++ "/" ++ p))
          (fun _ p => "out/" ++ p) (fun _ p _ => p)
          "virtualbox-iso" [("boot_wait", .str "5s")] [] = .ok (m', dirs')
      ∧ assocGet m' "http_directory" = some (.str "http")
      ∧ assocGet dirs' "out/http" = some "src/virtualbox-iso/http"
      ∧ (∀ k, k ≠ "http_directory" →
          assocGet m' k = assocGet [(("boot_wait" : String), GoVal.str "5s")] k) :=
  setHTTP_assumes_http (fun p c _ => .ok ("src/" ++ c ++ "/" ++ p))
    (fun _ p => "out/" ++ p) (fun _ p _ => p) "virtualbox-iso"
    [("boot_wait", .str "5s")] [] "src/virtualbox-iso/http" rfl rfl (by decide)

/-! ## Source resolution in example mode -/

/-- Modelled from the spec: the example-mode branch of
`RawTemplate.findSource` (the function's body is not among the provided
source files; only `TestFindSourceExample` in `app/raw_template_test.go`
exercises it).  Spec §4.2: an empty path fails with the empty-path error; in
example mode the layered disk search is skipped and the relative
`component/path` form is returned without checking existence, with a
trailing separator when the caller flags a directory.  The error text and
the shape of the returned form follow the expectations of
`TestFindSourceExample` (lines 632–676). -/
def findSourceExample (path component : String) (isDir : Bool) : Except String String :=
  if path = "" then .error "find source: empty path"
  else
    let p := if component = "" then path else component ++ "/" ++ path
    .ok (if isDir then p ++ "/" else p)

/-- C8 (confirmed): in example mode, every non-empty path resolves to the
relative `component/path` form (with a trailing separator when the caller
flags a directory) without consulting the file system, while the empty path
still fails with the empty-path error; the closed conjuncts are rows of
`TestFindSourceExample`. -/
theorem findSource_example_mode :
    (∀ component isDir, findSourceExample "" component isDir =
      .error "find source: empty path")
    ∧ (∀ path component isDir, path ≠ "" →
        findSourceExample path component isDir =
          .ok ((if component = "" then path else component ++ "/" ++ path)
            ++ (if isDir then "/" else "")))
    ∧ findSourceExample "cookbook1" "chef-solo" true = .ok "chef-solo/cookbook1/"
    ∧ findSourceExample "something" "" false = .ok "something"
    ∧ findSourceExample "minion" "salt" false = .ok "salt/minion"
    ∧ findSourceExample "commands" "shell" true = .ok "shell/commands/" := by
  refine ⟨?_, ?_, by rfl, by rfl, by rfl, by rfl⟩
  · intro component isDir
    rfl
  · intro path component isDir hpath
    by_cases hc : component = ""
    · cases isDir <;> simp [findSourceExample, hpath, hc, String.append_empty]
    · cases isDir <;> simp [findSourceExample, hpath, hc, String.append_empty]

/-- Witness for `findSource_example_mode` at a non-empty path. -/
theorem findSource_example_mode_witness :
    findSourceExample "http/preseed.cfg" "" false = .ok "http/preseed.cfg" :=
  (findSource_example_mode.2.1 "http/preseed.cfg" "" false (by decide)).trans (by rfl)

/-! ## amazon-chroot synthesis (`createAmazonChroot`, part_004 lines
290–392)

The settings walk is embedded per entry; `subst` stands for
`r.replaceVariables` and `comm` for the outcome of `processCommunicator`
(both defined outside the provided sources). -/

/-- `SettingErr{k, v, err}`: `err` is `none` when the underlying
`strconv.Atoi` succeeded (Go `err == nil`). -/
structure SettingErr where
  key : String
  value : String
  err : Option String
  deriving DecidableEq

inductive ChrootErr where
  | builder : String → ChrootErr
  | setting : SettingErr → ChrootErr
  | required : String → ChrootErr
  deriving DecidableEq

/-- A synthesized settings value (`map[string]interface{}` entry). -/
inductive AVal where
  | str : String → AVal
  | bool : Bool → AVal
  | int : Int → AVal
  | arr : GoVal → AVal

structure ChrootState where
  settings : List (String × AVal)
  hasAccessKey : Bool
  hasAmiName : Bool
  hasSecretKey : Bool
  hasSourceAmi : Bool

/-- The per-key switch of `createAmazonChroot`'s settings walk, for the keys
that do not return early: strings are assigned, `enhanced_networking` and
`force_deregister` are parsed as bools with the error discarded, the four
required keys also set their flags, unknown keys are skipped. -/
def chrootAssign (k v : String) (st : ChrootState) : ChrootState :=
  match k with
  | "access_key" =>
      { st with settings := assocSet st.settings k (.str v), hasAccessKey := true }
  | "ami_name" =>
      { st with settings := assocSet st.settings k (.str v), hasAmiName := true }
  | "ami_description" => { st with settings := assocSet st.settings k (.str v) }
  | "ami_virtualization_type" => { st with settings := assocSet st.settings k (.str v) }
  | "command_wrapper" => { st with settings := assocSet st.settings k (.str v) }
  | "device_path" => { st with settings := assocSet st.settings k (.str v) }
  | "enhanced_networking" =>
      { st with settings := assocSet st.settings k (.bool (goParseBoolLax v)) }
  | "force_deregister" =>
      { st with settings := assocSet st.settings k (.bool (goParseBoolLax v)) }
  | "mount_path" => { st with settings := assocSet st.settings k (.str v) }
  | "secret_key" =>
      { st with settings := assocSet st.settings k (.str v), hasSecretKey := true }
  | "source_ami" =>
      { st with settings := assocSet st.settings k (.str v), hasSourceAmi := true }
  | _ => st

/-- One iteration of the walk.  The `root_volume_size` case is the source's
`settings[k], err = strconv.Atoi(v); return nil, SettingErr{k, v, err}`: it
returns the error *unconditionally*, with `err = nil` when the value parsed
(the `if err != nil` guard is missing in the source). -/
def chrootStep (subst : String → String) (s : String) (st : ChrootState) :
    Except SettingErr ChrootState :=
  let kv := parseVar s
  let k := kv.1
  let v := subst kv.2
  if k = "root_volume_size" then
    .error { key := k, value := v,
             err := match goAtoi v with | .ok _ => none | .error e => some e }
  else .ok (chrootAssign k v st)

def chrootLoop (subst : String → String) :
    List String → ChrootState → Except SettingErr ChrootState
  | [], st => .ok st
  | s :: rest, st =>
      match chrootStep subst s st with
      | .error e => .error e
      | .ok st' => chrootLoop subst rest st'

/-- The arrays pass of `createAmazonChroot` (lines 366–389): supported array
names are deep-copied into the settings map, others are skipped. -/
def chrootArraysPass (arrays : List (String × GoVal))
    (settings : List (String × AVal)) : List (String × AVal) :=
  arrays.foldl (fun acc p =>
    if p.1 == "ami_groups" || p.1 == "ami_product_codes" || p.1 == "ami_regions"
        || p.1 == "ami_users" || p.1 == "chroot_mounts" || p.1 == "copy_files"
        || p.1 == "mount_options" || p.1 == "tags"
    then assocSet acc p.1 (.arr p.2) else acc) settings

/-- `createAmazonChroot` (part_004 lines 290–392): communicator processing,
the settings walk, the four required-key checks, and the arrays pass. -/
def createAmazonChroot (subst : String → String) (comm : Except String Unit)
    (ws : List String) (arrays : List (String × GoVal)) :
    Except ChrootErr (List (String × AVal)) :=
  match comm with
  | .error e => .error (.builder e)
  | .ok _ =>
    match chrootLoop subst ws ⟨[("type", .str "amazon-chroot")], false, false, false, false⟩ with
    | .error se => .error (.setting se)
    | .ok st =>
        if !st.hasAccessKey then .error (.required "access_key")
        else if !st.hasAmiName then .error (.required "ami_name")
        else if !st.hasSecretKey then .error (.required "secret_key")
        else if !st.hasSourceAmi then .error (.required "source_ami")
        else .ok (chrootArraysPass arrays st.settings)

theorem chrootLoop_error_of_root_volume_size (subst : String → String)
    (ws : List String) (st : ChrootState)
    (h : ∃ s ∈ ws, (parseVar s).1 = "root_volume_size") :
    ∃ se, chrootLoop subst ws st = .error se := by
  induction ws generalizing st with
  | nil => simp at h
  | cons s rest ih =>
      by_cases hs : (parseVar s).1 = "root_volume_size"
      · refine ⟨⟨(parseVar s).1, subst (parseVar s).2,
            match goAtoi (subst (parseVar s).2) with
            | .ok _ => none
            | .error e => some e⟩, ?_⟩
        simp [chrootLoop, chrootStep, hs]
      · rcases h with ⟨t, ht, hk⟩
        rcases List.mem_cons.mp ht with rfl | htr
        · exact absurd hk hs
        · have hstep : chrootStep subst s st = .ok (chrootAssign (parseVar s).1
              (subst (parseVar s).2) st) := by
            simp [chrootStep, hs]
          rcases ih (chrootAssign (parseVar s).1 (subst (parseVar s).2) st)
              ⟨t, htr, hk⟩ with ⟨se, hse⟩
          exact ⟨se, by simp [chrootLoop, hstep, hse]⟩

/-- C9 (confirmed): every amazon-chroot configuration whose merged settings
contain a `root_volume_size` entry makes `createAmazonChroot` return a nil
settings map and an error, whatever the value — the source returns
`SettingErr{k, v, err}` without checking `err`, so even a value that parses
as a valid integer errors (second conjunct: the error's cause field is
`none`, i.e. `strconv.Atoi` succeeded).  Synthesis can succeed only for
configurations omitting `root_volume_size`. -/
theorem createAmazonChroot_errors_on_root_volume_size (subst : String → String)
    (comm : Except String Unit) (ws : List String) (arrays : List (String × GoVal))
    (h : ∃ s ∈ ws, (parseVar s).1 = "root_volume_size") :
    (∃ e, createAmazonChroot subst comm ws arrays = .error e)
    ∧ createAmazonChroot (fun v => v) (.ok ()) ["root_volume_size = 20000"] []
        = .error (.setting ⟨"root_volume_size", "20000", none⟩) := by
  constructor
  · match comm with
    | .error e => exact ⟨.builder e, rfl⟩
    | .ok _ =>
        rcases chrootLoop_error_of_root_volume_size subst ws
          ⟨[("type", .str "amazon-chroot")], false, false, false, false⟩ h with ⟨se, hse⟩
        exact ⟨.setting se, by simp [createAmazonChroot, hse]⟩
  · rfl

/-- Witness for `createAmazonChroot_errors_on_root_volume_size` at a
configuration that sets every required key and a valid integer
`root_volume_size`. -/
theorem createAmazonChroot_errors_on_root_volume_size_witness :
    (∃ e, createAmazonChroot (fun v => v) (.ok ())
        ["access_key = AK", "ami_name = img", "secret_key = SK", "source_ami = ami-1",
         "root_volume_size = 20000"] [] = .error e)
    ∧ createAmazonChroot (fun v => v) (.ok ()) ["root_volume_size = 20000"] []
        = .error (.setting ⟨"root_volume_size", "20000", none⟩) :=
  createAmazonChroot_errors_on_root_volume_size (fun v => v) (.ok ())
    ["access_key = AK", "ami_name = img", "secret_key = SK", "source_ami = ami-1",
     "root_volume_size = 20000"] [] (by decide)

/-! ## The `vboxmanage` array transform (`createVBoxManage`, part_004 lines
2909–2928) -/

/-- The literal `"{{.Name}}"` placed in every generated row. -/
def nameTemplate : String := "\x7b\x7b.Name\x7d\x7d"

/-- `RawTemplate.createVBoxManage` (part_004 lines 2909–2928): the input
interface value is deep-copied (`deepcopy.Copy` preserves the dynamic type
and value, hence the identity here) and subjected to the *unchecked* type
assertion `.([]string)` — the source's own comment reads "this will panic if
it isn't a slice of strings", embedded as `none`.  For a `[]string`, each
`key=value` entry becomes the row `["modifyvm", "{{.Name}}", "--key",
value]`, the `--` prefixed only when absent, the value passed through
variable replacement (`subst`). -/
def createVBoxManage (subst : String → String) (v : GoVal) :
    Option (List (List String)) :=
  match v with
  | .strSlice vms =>
      some (vms.map (fun s =>
        let kv := parseVar s
        let k := if goHasPrefix kv.1 "--" then kv.1 else "--" ++ kv.1
        ["modifyvm", nameTemplate, k, subst kv.2]))
  | _ => none

/-- C10 (confirmed): `createVBoxManage` is total only on `[]string` values:
for a slice of `key=value` strings it yields one four-element
`["modifyvm", "{{.Name}}", "--key", value]` row per entry in order (with
`--` prefixed only when absent), and for a value of any other dynamic type —
such as the `[]interface{}` the configuration decoders produce (cf. the
`vboxmanage` array of `testDefaults`, part_003 lines 68–74) — it panics via
the failed type assertion instead of returning an error. -/
theorem createVBoxManage_total_only_on_string_slices (subst : String → String) :
    (∀ vms : List String, ∃ rows,
      createVBoxManage subst (.strSlice vms) = some rows
      ∧ rows.length = vms.length
      ∧ ∀ i, i < vms.length →
          rows.getD i [] =
            ["modifyvm", nameTemplate,
             (if goHasPrefix (parseVar (vms.getD i "")).1 "--"
              then (parseVar (vms.getD i "")).1
              else "--" ++ (parseVar (vms.getD i "")).1),
             subst (parseVar (vms.getD i "")).2])
    ∧ (∀ v : GoVal, (∀ vms, v ≠ .strSlice vms) → createVBoxManage subst v = none) := by
  constructor
  · intro vms
    refine ⟨_, rfl, by simp, ?_⟩
    intro i hi
    rcases List.getElem?_eq_some_iff.mpr ⟨hi, rfl⟩ with hget
    simp only [List.getD_eq_getElem?_getD, List.getElem?_map, hget]
    rfl
  · intro v hv
    cases v with
    | strSlice l => exact absurd rfl (hv l)
    | str s => rfl
    | int n => rfl
    | bool b => rfl
    | strSliceSlice x => rfl
    | ifaceSlice x => rfl

/-- Witness for `createVBoxManage_total_only_on_string_slices`: the
`[]interface{}` shape of `testDefaults`' `vboxmanage` array panics, while
the same entries as a `[]string` produce rows. -/
theorem createVBoxManage_total_only_on_string_slices_witness :
    createVBoxManage (fun v => v) (.ifaceSlice [.str "cpus=1", .str "memory=1024"]) = none
    ∧ ∃ rows, createVBoxManage (fun v => v) (.strSlice ["cpus=1", "memory=1024"])
        = some rows := by
  constructor
  · exact (createVBoxManage_total_only_on_string_slices (fun v => v)).2 _
      (fun vms h => by cases h)
  · obtain ⟨rows, hrows, -, -⟩ :=
      (createVBoxManage_total_only_on_string_slices (fun v => v)).1 ["cpus=1", "memory=1024"]
    exact ⟨rows, hrows⟩

end Feedlot
